import Mathlib

/-!
Shallow embedding of photo_organize.py (photo_manager repository).

Paths and file names are Lean Strings; file contents are lists of byte
values.  External collaborators (hachoir metadata extraction, hashlib's
SHA-1 core, the OS calls that can fail) are modelled as oracle functions
carried in a context record, keyed by path, so that every control-flow
path of the Python source is reachable in the model.
-/

set_option autoImplicit false

namespace PhotoOrganize

/-- File contents: a list of byte values, modelling a Python byte string. -/
abbrev Bytes := List Nat

/-- The bytes of a Lean string, modelling a Python str used as bytes. -/
def strBytes (s : String) : Bytes := s.data.map Char.toNat

/-- Decimal digits of a natural number, most significant first, modelling
the %d / %s formatting of a Python int.  The fuel argument only bounds the
number of divide-by-ten steps (n + 1 always suffices); it makes the loop
structurally recursive so that it evaluates by kernel reduction. -/
def toDecimalGo (fuel : Nat) (n : Nat) (acc : List Char) : List Char :=
  match fuel with
  | 0 => acc
  | fuel + 1 =>
    let d := Char.ofNat (48 + n % 10)
    if n < 10 then d :: acc else toDecimalGo fuel (n / 10) (d :: acc)

/-- Decimal representation of a natural number. -/
def toDecimal (n : Nat) : String := String.mk (toDecimalGo (n + 1) n [])

/-- Zero padding to a given width, modelling the %04d and %02d formats. -/
def padZeros (w : Nat) (n : Nat) : String :=
  String.mk (List.replicate (w - (toDecimal n).data.length) '0') ++ toDecimal n

/-- Whether the first character of a string is a path separator,
modelling Python s.startswith(os.sep) for a one-character separator. -/
def strStartsWithSlash (s : String) : Bool :=
  match s.data with
  | [] => false
  | c :: _ => c == '/'

/-- Whether the last character of a string is a path separator,
modelling Python s.endswith(os.sep) for a one-character separator. -/
def strEndsWithSlash (s : String) : Bool :=
  match s.data.getLast? with
  | some c => c == '/'
  | none => false

/-- posixpath.join for two components. -/
def pathJoin (a b : String) : String :=
  if strStartsWithSlash b then b
  else if a = "" || strEndsWithSlash a then a ++ b
  else a ++ "/" ++ b

/-- Index of the last occurrence of a character, or -1, modelling str.rfind. -/
def rfindCharAux : List Char → Char → Nat → Int → Int
  | [], _, _, best => best
  | x :: xs, c, i, best => rfindCharAux xs c (i + 1) (if x == c then (i : Int) else best)

/-- str.rfind over a whole string. -/
def rfindChar (cs : List Char) (c : Char) : Int := rfindCharAux cs c 0 (-1)

/-- The extension part of posixpath.splitext: everything from the last dot of
the final path component, unless that component consists only of leading dots. -/
def splitextExt (p : List Char) : List Char :=
  let sepIndex := rfindChar p '/'
  let dotIndex := rfindChar p '.'
  if sepIndex < dotIndex then
    let filenameStart := (sepIndex + 1).toNat
    if ((p.drop filenameStart).take (dotIndex.toNat - filenameStart)).any
        (fun ch => !(ch == '.')) then
      p.drop dotIndex.toNat
    else []
  else []

/-- str.lower over ASCII data. -/
def lowerStr (s : String) : String := String.mk (s.data.map Char.toLower)

/-- os.path.splitext(filepath)[1].lower(), as computed in the organize loop. -/
def fileExtension (filepath : String) : String :=
  lowerStr (String.mk (splitextExt filepath.data))

/-- The fixed extension allow-list of photo_organize.py. -/
def supported_extensions : List String :=
  [".jpg", ".jpeg", ".mov", ".avi", ".thm", ".mp4"]

/-- The read loop of read_in_chunks.  The fuel argument only bounds the
number of iterations (each iteration with a positive chunk size consumes at
least one byte, so data.length + 1 always suffices); it makes the loop
structurally recursive so that it evaluates by kernel reduction. -/
def read_in_chunks_go (fuel : Nat) (data : Bytes) (chunk_size : Nat) : List Bytes :=
  match fuel with
  | 0 => []
  | fuel + 1 =>
    if data = [] ∨ chunk_size = 0 then []
    else data.take chunk_size :: read_in_chunks_go fuel (data.drop chunk_size) chunk_size

/-- read_in_chunks: split a byte string into chunks of a fixed size, in
order.  With chunk size 0, Python's f.read(0) returns an empty string at
once and the loop stops, yielding no chunks, which the guard reproduces. -/
def read_in_chunks (data : Bytes) (chunk_size : Nat) : List Bytes :=
  read_in_chunks_go (data.length + 1) data chunk_size

/-- The size-prefix header fed to the hash before the file bytes:
the bytes of 'blob %s\0' % size. -/
def blobHeader (size : Nat) : Bytes :=
  strBytes ("blob " ++ toDecimal size) ++ [0]

/-- file_sha1: feed the blob header and then each chunk of the file to an
incremental hash whose digest is a function of all bytes fed so far.
sha1Hex abstracts hashlib.sha1's digest of an accumulated byte stream. -/
def file_sha1 (sha1Hex : Bytes → String) (content : Bytes) : String :=
  sha1Hex ((read_in_chunks content 4194304).foldl
    (fun acc chunk => acc ++ chunk) (blobHeader content.length))

/-- A creation timestamp as recovered from metadata: the fields used by
organize (dt.year, dt.month, dt.isoformat()).  isoformat is carried as an
opaque-valued field of the external datetime object. -/
structure Timestamp where
  year : Nat
  month : Nat
  iso : String
deriving DecidableEq

/-- Outcome of the get_datetime call for one path: a timestamp, a ValueError
(caught at line 120, leaving dt = None), or some other exception that
propagates to the outer per-file handler. -/
inductive DtOutcome where
  | found (ts : Timestamp)
  | noMetadata
  | raised
deriving DecidableEq

/-- The dt value after the inner try/except around get_datetime
(only meaningful when the outcome is not an escaping exception). -/
def dtView : DtOutcome → Option Timestamp
  | .found t => some t
  | _ => none

/-- Outcome of an os.rmdir call during the cleanup walk-up. -/
inductive RmdirOutcome where
  | removed
  | notEmpty
  | failed
deriving DecidableEq

/-- Modelled filesystem: regular files with contents, plus the set of
directories created so far (only mutations are tracked; the claims are
about which mutations happen, not about directory listing). -/
structure FS where
  files : List (String × Bytes)
  dirs : List String
deriving DecidableEq

/-- Content of a regular file, if present. -/
def FS.lookupFile (fs : FS) (p : String) : Option Bytes := fs.files.lookup p

/-- os.path.isfile. -/
def FS.isfile (fs : FS) (p : String) : Bool := (fs.lookupFile p).isSome

/-- Write (or overwrite) a regular file. -/
def FS.setFile (fs : FS) (p : String) (c : Bytes) : FS :=
  { fs with files := (p, c) :: fs.files.filter (fun e => !(e.1 == p)) }

/-- os.remove. -/
def FS.removeFile (fs : FS) (p : String) : FS :=
  { fs with files := fs.files.filter (fun e => !(e.1 == p)) }

/-- os.makedirs with the EEXIST branch swallowed: creating a directory that
already exists changes nothing. -/
def FS.makedirs (fs : FS) (d : String) : FS :=
  { fs with dirs := if d ∈ fs.dirs then fs.dirs else d :: fs.dirs }

/-- os.rmdir of an empty directory. -/
def FS.rmdir (fs : FS) (d : String) : FS :=
  { fs with dirs := fs.dirs.filter (fun x => !(x == d)) }

/-- One ProcessedEntry, the dict yielded by organize. -/
structure Entry where
  source : String
  destination : String
deriving DecidableEq

/-- The run context: the organize arguments plus the oracles abstracting the
external collaborators (metadata extraction, the SHA-1 digest core, and
failure injection for the OS calls that may raise). -/
structure Ctx where
  input_root : String
  output_root : String
  copy : Bool
  dry_run : Bool
  delete_duplicates : Bool
  sha1Hex : Bytes → String
  dtOracle : String → DtOutcome
  hashRaises : String → Bool
  mkdirRaises : String → Bool
  moveRaises : String → Bool
  removeRaises : String → Bool
  rmdirOutcome : String → RmdirOutcome

/-- Destination directory (lines 126-132): output_root/YYYY/MM with a
timestamp, else output_root/no_metadata. -/
def destDirs (output_root : String) (dt : Option Timestamp) : String :=
  match dt with
  | some t => pathJoin (pathJoin output_root (padZeros 4 t.year)) (padZeros 2 t.month)
  | none => pathJoin output_root "no_metadata"

/-- Destination file name (lines 129, 134): isoformat_sha.ext with a
timestamp, else sha.ext. -/
def destName (dt : Option Timestamp) (sha_str extension : String) : String :=
  match dt with
  | some t => t.iso ++ "_" ++ sha_str ++ extension
  | none => sha_str ++ extension

/-- The destination directory organize computes for one file under a
context (lines 127 and 132, with dt as left by the inner try/except). -/
def fileDestDirs (ctx : Ctx) (p : String) : String :=
  destDirs ctx.output_root (dtView (ctx.dtOracle p))

/-- The full destination path organize computes for one file with the given
source content (lines 126-135). -/
def fileDestPath (ctx : Ctx) (p : String) (content : Bytes) : String :=
  pathJoin (fileDestDirs ctx p)
    (destName (dtView (ctx.dtOracle p)) (file_sha1 ctx.sha1Hex content)
      (fileExtension p))

/-- Lines 147-166: ensure the destination directory exists (skipped when
dry_run), then move or copy the file (skipped when dry_run), then yield the
entry.  An error value carries the filesystem state at the raise point and
stands for an exception escaping to the outer per-file handler.  Copying a
file onto itself raises shutil.Error; moving onto itself is a same-volume
rename, a no-op that succeeds. -/
def relocate (ctx : Ctx) (fs : FS) (filepath : String) (content : Bytes)
    (output_dirs destination_path : String) : Except FS (FS × Option Entry) :=
  if ctx.dry_run then .ok (fs, some ⟨filepath, destination_path⟩)
  else if ctx.mkdirRaises output_dirs then .error fs
  else
    let fs1 := fs.makedirs output_dirs
    if ctx.moveRaises filepath then .error fs1
    else if ctx.copy then
      if destination_path = filepath then .error fs1
      else .ok (fs1.setFile destination_path content, some ⟨filepath, destination_path⟩)
    else .ok ((fs1.removeFile filepath).setFile destination_path content,
        some ⟨filepath, destination_path⟩)

/-- The body of the per-file loop of organize (lines 107-166), inside the
outer try.  ok (fs, some e) is a yielded entry, ok (fs, none) a continue,
error fs an exception reaching the outer except at line 167. -/
def processFileE (ctx : Ctx) (fs : FS) (filepath : String) :
    Except FS (FS × Option Entry) :=
  let extension := fileExtension filepath
  if extension ∈ supported_extensions then
    if ctx.dtOracle filepath = .raised then .error fs
    else
      let dt := dtView (ctx.dtOracle filepath)
      if ctx.hashRaises filepath then .error fs
      else
        match fs.lookupFile filepath with
        | none => .error fs
        | some content =>
          let sha_str := file_sha1 ctx.sha1Hex content
          let output_dirs := destDirs ctx.output_root dt
          let destination_path := pathJoin output_dirs (destName dt sha_str extension)
          match fs.lookupFile destination_path with
          | some dcontent =>
            if ctx.hashRaises destination_path then .error fs
            else if file_sha1 ctx.sha1Hex dcontent = sha_str then
              if ctx.delete_duplicates then
                if ctx.dry_run then .ok (fs, none)
                else if ctx.removeRaises filepath then .ok (fs, none)
                else .ok (fs.removeFile filepath, none)
              else relocate ctx fs filepath content output_dirs destination_path
            else relocate ctx fs filepath content output_dirs destination_path
          | none => relocate ctx fs filepath content output_dirs destination_path
  else .ok (fs, none)

/-- The per-file loop body with its outer try/except (lines 114-169): any
escaping exception is logged and the loop continues with the next file. -/
def processFile (ctx : Ctx) (fs : FS) (filepath : String) : FS × Option Entry :=
  match processFileE ctx fs filepath with
  | .ok r => r
  | .error fs1 => (fs1, none)

/-- The inner for-loop of organize over the (non-hidden) filenames of one
walk directory, collecting yielded entries in order. -/
def processFiles (ctx : Ctx) (fs : FS) (paths : List String) : FS × List Entry :=
  match paths with
  | [] => (fs, [])
  | p :: rest =>
    let r1 := processFile ctx fs p
    let r2 := processFiles ctx r1.1 rest
    (r2.1, r1.2.toList ++ r2.2)

/-- os.path.split(path)[0]: the string up to the last separator, with
trailing separators stripped unless the head is all separators. -/
def splitHead (p : String) : String :=
  let i := (rfindChar p.data '/' + 1).toNat
  let head := String.mk (p.data.take i)
  if head = "" then head
  else if head.data.all (fun c => c == '/') then head
  else String.mk ((head.data.reverse.dropWhile (fun c => c == '/')).reverse)

/-- The cleanup walk-up at the end of each directory (lines 170-183): remove
the directory if empty, stop on the first rmdir failure or at input_root,
otherwise move to the parent.  In dry_run mode no rmdir is attempted, so no
exception can stop the climb.  The source loops forever if the climb stalls
before reaching input_root (impossible for paths produced by
os.walk(input_root)); the embedding stops there instead. -/
def cleanupFrom (ctx : Ctx) (fs : FS) (path : String) : FS :=
  if path = ctx.input_root then fs
  else
    let step : FS × Bool :=
      if ctx.dry_run then (fs, true)
      else
        match ctx.rmdirOutcome path with
        | .removed => (fs.rmdir path, true)
        | .notEmpty => (fs, false)
        | .failed => (fs, false)
    if step.2 then
      if h : (splitHead path).length < path.length then
        cleanupFrom ctx step.1 (splitHead path)
      else step.1
    else step.1
termination_by path.length

/-- Processing of one os.walk tuple (dirpath, filenames): hidden filenames
are filtered out (line 104), each remaining file is processed, then the
cleanup walk-up runs from dirpath. -/
def organizeDir (ctx : Ctx) (fs : FS) (dirpath : String) (filenames : List String) :
    FS × List Entry :=
  let visible := filenames.filter (fun f => !(f.startsWith "."))
  let r := processFiles ctx fs (visible.map (fun f => pathJoin dirpath f))
  (cleanupFrom ctx r.1 dirpath, r.2)

/-- The organize generator, run to completion over a walk of the input tree.
The walk list abstracts os.walk(input_root) (hidden-directory pruning at
line 105 determines which tuples appear and is external to the model). -/
def organize (ctx : Ctx) (fs : FS) (walk : List (String × List String)) :
    FS × List Entry :=
  match walk with
  | [] => (fs, [])
  | (dirpath, filenames) :: rest =>
    let r1 := organizeDir ctx fs dirpath filenames
    let r2 := organize ctx r1.1 rest
    (r2.1, r1.2 ++ r2.2)

/-- The replace(os.sep, '_') applied to the input directory (line 220). -/
def replaceSep (s : String) : String :=
  String.mk (s.data.map (fun c => if c == '/' then '_' else c))

/-- lock_path (line 220): os.path.join('/', 'tmp',
input.replace(os.sep, '_') + '.photo_organize_lock'). -/
def lock_path (input_directory : String) : String :=
  pathJoin (pathJoin "/" "tmp") (replaceSep input_directory ++ ".photo_organize_lock")

/-- BlockLockAndDropIt.__enter__: fcntl.lockf with LOCK_EX | LOCK_NB either
acquires the lock or raises LockAcquireError. -/
inductive LockResult where
  | acquired
  | lockAcquireError
deriving DecidableEq

/-- Whether __enter__ succeeds, given whether another process holds the lock. -/
def blockLockEnter (heldByOther : Bool) : LockResult :=
  if heldByOther then .lockAcquireError else .acquired

/-- Observable outcome of the __main__ block. -/
structure MainResult where
  exitCode : Nat
  fs : FS
  entries : List Entry
  alreadyRunningLogged : Bool
deriving DecidableEq

/-- The __main__ block after argument parsing (lines 219-231): acquire the
lock, drain the organize generator, and catch LockAcquireError, which is
only logged (at debug level) before the script ends normally. -/
def mainRun (heldByOther : Bool) (ctx : Ctx) (fs : FS)
    (walk : List (String × List String)) : MainResult :=
  match blockLockEnter heldByOther with
  | .lockAcquireError => { exitCode := 0, fs := fs, entries := [], alreadyRunningLogged := true }
  | .acquired =>
    let r := organize ctx fs walk
    { exitCode := 0, fs := r.1, entries := r.2, alreadyRunningLogged := false }

/-! ## Concrete oracles and filesystems used to exercise the theorems -/

/-- A failure-free context: move mode, real run, duplicates not deleted,
no metadata found, constant digest. -/
def ctxC : Ctx :=
  { input_root := "in", output_root := "out", copy := false, dry_run := false,
    delete_duplicates := false,
    sha1Hex := fun _ => "h", dtOracle := fun _ => .noMetadata,
    hashRaises := fun _ => false, mkdirRaises := fun _ => false,
    moveRaises := fun _ => false, removeRaises := fun _ => false,
    rmdirOutcome := fun _ => .notEmpty }

/-- Like ctxC but with a metadata timestamp for every file. -/
def ctxTsC : Ctx := { ctxC with dtOracle := fun _ => .found ⟨2014, 6, "2014-06-01T10:00:00"⟩ }

/-- Like ctxC but get_datetime raises a non-ValueError exception. -/
def ctxRaiseC : Ctx := { ctxC with dtOracle := fun _ => .raised }

/-- The timestamped context in dry-run mode. -/
def ctxDryTsC : Ctx := { ctxTsC with dry_run := true }

/-- One supported input file, empty output tree. -/
def fsC : FS := { files := [("in/a.jpg", [1])], dirs := [] }

/-- One supported input file whose computed destination (under ctxC) already
holds a file with identical content. -/
def fsDupC : FS :=
  { files := [("in/a.jpg", [1]), ("out/no_metadata/h.jpg", [1])],
    dirs := ["out/no_metadata"] }

/-- The filesystem and entry produced by ctxTsC on fsC. -/
def fsTsAfterC : FS :=
  { files := [("out/2014/06/2014-06-01T10:00:00_h.jpg", [1])],
    dirs := ["out/2014/06"] }

/-- The entry emitted by ctxTsC on fsC. -/
def eTsC : Entry := ⟨"in/a.jpg", "out/2014/06/2014-06-01T10:00:00_h.jpg"⟩

/-- An already-organized tree: the only file sits at its own computed
destination under ctxC. -/
def fsFixC : FS :=
  { files := [("out/no_metadata/h.jpg", [1])], dirs := ["out/no_metadata"] }

/-! ## String and list helper lemmas -/

theorem string_data_append (a b : String) : (a ++ b).data = a.data ++ b.data := by
  cases a; cases b; rfl

theorem string_ne_empty_of_data_ne_nil {s : String} (h : s.data ≠ []) : s ≠ "" := by
  intro he
  rw [he] at h
  exact h rfl

theorem strBytes_append (a b : String) : strBytes (a ++ b) = strBytes a ++ strBytes b := by
  simp [strBytes, string_data_append]

theorem strStartsWithSlash_eq_false {s : String} (h : '/' ∉ s.data) :
    strStartsWithSlash s = false := by
  unfold strStartsWithSlash
  match hs : s.data with
  | [] => rfl
  | c :: cs =>
    rw [hs] at h
    simp only [List.mem_cons, not_or] at h
    simpa using fun hc => h.1 hc.symm

theorem strEndsWithSlash_eq_false {s : String} (h : '/' ∉ s.data) :
    strEndsWithSlash s = false := by
  unfold strEndsWithSlash
  match hs : s.data.getLast? with
  | none => rfl
  | some c =>
    have hmem : c ∈ s.data := by
      rcases List.mem_getLast?_eq_getLast (l := s.data) (x := c) (by rw [hs]; rfl) with ⟨hne, hc⟩
      rw [hc]
      exact List.getLast_mem hne
    have : c ≠ '/' := fun hc => h (hc ▸ hmem)
    simpa using this

theorem strEndsWithSlash_append {a b : String} (hb : b.data ≠ []) :
    strEndsWithSlash (a ++ b) = strEndsWithSlash b := by
  unfold strEndsWithSlash
  rw [string_data_append, List.getLast?_append_of_ne_nil _ hb]

theorem pathJoin_eq_slash {a b : String} (hb : strStartsWithSlash b = false)
    (ha1 : a ≠ "") (ha2 : strEndsWithSlash a = false) :
    pathJoin a b = a ++ "/" ++ b := by
  unfold pathJoin
  simp [hb, ha1, ha2]

/-! ## Decimal formatting lemmas -/

theorem digitChar_ne_slash (k : Nat) (hk : k < 10) : Char.ofNat (48 + k) ≠ '/' := by
  interval_cases k <;> decide

theorem toDecimalGo_no_slash :
    ∀ (fuel n : Nat) (acc : List Char), '/' ∉ acc → '/' ∉ toDecimalGo fuel n acc := by
  intro fuel
  induction fuel with
  | zero => intro n acc hacc; exact hacc
  | succ fuel ih =>
    intro n acc hacc
    unfold toDecimalGo
    have hd : ∀ hmem : '/' ∈ Char.ofNat (48 + n % 10) :: acc, False := by
      intro hmem
      rcases List.mem_cons.mp hmem with h1 | h1
      · exact digitChar_ne_slash (n % 10) (Nat.mod_lt _ (by omega)) h1.symm
      · exact hacc h1
    by_cases h : n < 10
    · simp only [if_pos h]
      exact hd
    · simp only [if_neg h]
      exact ih (n / 10) _ hd

theorem toDecimalGo_ne_nil :
    ∀ (fuel n : Nat) (acc : List Char), fuel ≠ 0 ∨ acc ≠ [] →
      toDecimalGo fuel n acc ≠ [] := by
  intro fuel
  induction fuel with
  | zero =>
    intro n acc hf
    rcases hf with hf | hf
    · exact absurd rfl hf
    · exact hf
  | succ fuel ih =>
    intro n acc hf
    unfold toDecimalGo
    by_cases h : n < 10
    · simp [h]
    · simp only [if_neg h]
      exact ih (n / 10) _ (Or.inr (by simp))

theorem padZeros_no_slash (w n : Nat) : '/' ∉ (padZeros w n).data := by
  unfold padZeros toDecimal
  rw [string_data_append]
  intro hmem
  rcases List.mem_append.mp hmem with h1 | h1
  · exact absurd (List.eq_of_mem_replicate h1) (by decide)
  · exact toDecimalGo_no_slash (n + 1) n [] (by simp) h1

theorem padZeros_data_ne_nil (w n : Nat) : (padZeros w n).data ≠ [] := by
  unfold padZeros toDecimal
  rw [string_data_append]
  simp [toDecimalGo_ne_nil (n + 1) n [] (Or.inl (by omega))]

/-! ## Destination path formula lemmas -/

theorem destDirs_some_eq (out : String) (t : Timestamp) (h1 : out ≠ "")
    (h2 : strEndsWithSlash out = false) :
    destDirs out (some t)
      = out ++ "/" ++ padZeros 4 t.year ++ "/" ++ padZeros 2 t.month := by
  show pathJoin (pathJoin out (padZeros 4 t.year)) (padZeros 2 t.month) = _
  rw [pathJoin_eq_slash (strStartsWithSlash_eq_false (padZeros_no_slash 4 t.year)) h1 h2]
  rw [pathJoin_eq_slash (strStartsWithSlash_eq_false (padZeros_no_slash 2 t.month))]
  · exact string_ne_empty_of_data_ne_nil
      (by rw [string_data_append]; simp [padZeros_data_ne_nil])
  · rw [strEndsWithSlash_append (padZeros_data_ne_nil 4 t.year)]
    exact strEndsWithSlash_eq_false (padZeros_no_slash 4 t.year)

theorem destDirs_none_eq (out : String) (h1 : out ≠ "")
    (h2 : strEndsWithSlash out = false) :
    destDirs out none = out ++ "/" ++ "no_metadata" := by
  show pathJoin out "no_metadata" = _
  exact pathJoin_eq_slash (by decide) h1 h2

theorem destDirs_some_props (out : String) (t : Timestamp) (h1 : out ≠ "")
    (h2 : strEndsWithSlash out = false) :
    destDirs out (some t) ≠ "" ∧ strEndsWithSlash (destDirs out (some t)) = false := by
  rw [destDirs_some_eq out t h1 h2]
  constructor
  · exact string_ne_empty_of_data_ne_nil
      (by rw [string_data_append]; simp [padZeros_data_ne_nil])
  · rw [strEndsWithSlash_append (padZeros_data_ne_nil 2 t.month)]
    exact strEndsWithSlash_eq_false (padZeros_no_slash 2 t.month)

theorem destDirs_none_props (out : String) (h1 : out ≠ "")
    (h2 : strEndsWithSlash out = false) :
    destDirs out none ≠ "" ∧ strEndsWithSlash (destDirs out none) = false := by
  rw [destDirs_none_eq out h1 h2]
  constructor
  · exact string_ne_empty_of_data_ne_nil
      (by rw [string_data_append]; simp)
  · rw [strEndsWithSlash_append (b := "no_metadata") (by decide)]
    decide

/-! ## Chunked hashing -/

theorem read_in_chunks_go_foldl :
    ∀ (fuel : Nat) (data init : Bytes) (n : Nat), n ≠ 0 → data.length < fuel →
      (read_in_chunks_go fuel data n).foldl (fun acc chunk => acc ++ chunk) init
        = init ++ data := by
  intro fuel
  induction fuel with
  | zero =>
    intro data init n hn hlen
    omega
  | succ fuel ih =>
    intro data init n hn hlen
    unfold read_in_chunks_go
    by_cases h : data = [] ∨ n = 0
    · rcases h with h | h
      · subst h
        simp
      · exact absurd h hn
    · rw [if_neg h]
      push_neg at h
      rw [List.foldl_cons]
      rw [ih (data.drop n) (init ++ data.take n) n hn ?_]
      · rw [List.append_assoc, List.take_append_drop]
      · have h1 : 0 < data.length := List.length_pos.mpr h.1
        rw [List.length_drop]
        omega

theorem read_in_chunks_foldl (data : Bytes) (n : Nat) (init : Bytes) (hn : n ≠ 0) :
    (read_in_chunks data n).foldl (fun acc chunk => acc ++ chunk) init
      = init ++ data := by
  unfold read_in_chunks
  exact read_in_chunks_go_foldl (data.length + 1) data init n hn (by omega)

/-! ## Claim C3 -/

/-- Claim C3: for every file, the content hash computed by file_sha1 equals
the digest of the byte string made of "blob ", the decimal byte size, a NUL
byte, and the full file content, for any incremental digest function
(hashlib's SHA-1 being the external instance): the chunked feeding of
read_in_chunks concatenates back to exactly that message. -/
theorem file_sha1_is_git_blob_hash (sha1Hex : Bytes → String) (content : Bytes) :
    file_sha1 sha1Hex content
      = sha1Hex (strBytes "blob " ++ strBytes (toDecimal content.length)
          ++ 0 :: content) := by
  unfold file_sha1 blobHeader
  rw [read_in_chunks_foldl content 4194304 _ (by decide)]
  rw [strBytes_append]
  simp [List.append_assoc]

/-! ## Claim C7 -/

/-- Claim C7: a file whose lower-cased extension is not in the allow-list is
skipped by the per-file loop of organize with no filesystem effect and no
ProcessedEntry. -/
theorem unsupported_extension_untouched (ctx : Ctx) (fs : FS) (p : String)
    (h : fileExtension p ∉ supported_extensions) :
    processFile ctx fs p = (fs, none) := by
  unfold processFile processFileE
  simp [h]

/-- Witness for C7 at a concrete input: a .txt file is left untouched. -/
theorem unsupported_extension_untouched_witness :
    processFile ctxC fsC "in/notes.txt" = (fsC, none) :=
  unsupported_extension_untouched ctxC fsC "in/notes.txt" (by decide)

/-! ## Claim C5 -/

/-- Claim C5: an exception escaping the per-file body (metadata, hashing,
directory creation, move/copy) is caught at the file boundary: the file
yields no entry and traversal continues with the remaining files from the
filesystem state at the raise point; no single file's failure aborts the
run. -/
theorem per_file_error_caught (ctx : Ctx) (fs fs1 : FS) (p : String)
    (rest : List String)
    (h : processFileE ctx fs p = .error fs1) :
    processFiles ctx fs (p :: rest) = processFiles ctx fs1 rest := by
  have hpf : processFile ctx fs p = (fs1, none) := by
    unfold processFile
    rw [h]
  conv_lhs => rw [processFiles]
  rw [hpf]
  simp

/-- Witness for C5 at a concrete input: get_datetime raises a non-ValueError
on the first file, and the second file is still processed. -/
theorem per_file_error_caught_witness :
    processFileE ctxRaiseC fsC "in/a.jpg" = .error fsC ∧
    processFiles ctxRaiseC fsC ["in/a.jpg", "in/b.jpg"]
      = processFiles ctxRaiseC fsC ["in/b.jpg"] :=
  ⟨rfl, per_file_error_caught ctxRaiseC fsC fsC "in/a.jpg" ["in/b.jpg"] rfl⟩

/-! ## Claim C4 -/

/-- Counterexample for C4 as stated: at a concrete input where another
instance holds the lock, the process exit code is 0, not non-zero, because
__main__ catches LockAcquireError and only logs it. -/
theorem lock_failure_exit_code_zero :
    (mainRun true ctxC fsC [("in", ["a.jpg"])]).exitCode = 0 := rfl

/-- Claim C4 (amended): whenever lock acquisition fails, the run aborts
immediately with the distinguishable already-running outcome before
processing any file and with zero filesystem mutations, but the caught
LockAcquireError is only logged and the process exits 0, not non-zero. -/
theorem lock_failure_aborts_without_processing (ctx : Ctx) (fs : FS)
    (walk : List (String × List String)) :
    mainRun true ctx fs walk
      = { exitCode := 0, fs := fs, entries := [], alreadyRunningLogged := true } := rfl

/-! ## Claim C10 -/

/-- Counterexample for C10: two distinct input roots whose lock paths
coincide, so the mapping is not injective. -/
theorem lock_path_not_injective :
    lock_path "a/b" = lock_path "a_b" ∧ "a/b" ≠ "a_b" := by
  exact ⟨rfl, by decide⟩

/-- sepRepl c is never the separator itself. -/
theorem sepRepl_ne_slash (c : Char) : (if c == '/' then '_' else c) ≠ '/' := by
  by_cases h : c = '/'
  · simp [h]
  · simpa [h] using h

theorem replaceSep_no_slash (s : String) : '/' ∉ (replaceSep s).data := by
  unfold replaceSep
  intro hmem
  simp only [List.mem_map] at hmem
  rcases hmem with ⟨c, _, hc⟩
  exact sepRepl_ne_slash c hc

theorem replaceSep_map_inj {s t : List Char} (hs : '_' ∉ s) (ht : '_' ∉ t)
    (h : s.map (fun c => if c == '/' then '_' else c)
       = t.map (fun c => if c == '/' then '_' else c)) : s = t := by
  induction s generalizing t with
  | nil => cases t with
    | nil => rfl
    | cons b bs => simp at h
  | cons a as ih =>
    cases t with
    | nil => simp at h
    | cons b bs =>
      simp only [List.map_cons, List.cons.injEq] at h
      simp only [List.mem_cons, not_or] at hs ht
      have hab : a = b := by
        by_cases ha : a = '/'
        · by_cases hb : b = '/'
          · rw [ha, hb]
          · rw [ha] at h
            simp [hb] at h
            exact absurd h.1 ht.1
        · by_cases hb : b = '/'
          · rw [hb] at h
            simp [ha] at h
            exact absurd h.1.symm hs.1
          · simpa [ha, hb] using h.1
      rw [hab]
      rw [ih hs.2 ht.2 h.2]

/-- Claim C10 (amended): the mapping from input root to lock path is not
injective in general (roots differing only in '/' versus '_' collide), but
it is injective on input roots containing no underscore, so such distinct
roots never contend for the same lock. -/
theorem lock_path_injective_no_underscore (s t : String)
    (hs : '_' ∉ s.data) (ht : '_' ∉ t.data)
    (h : lock_path s = lock_path t) : s = t := by
  unfold lock_path at h
  rw [pathJoin_eq_slash (b := replaceSep s ++ ".photo_organize_lock") ?hbs (by decide) (by decide),
      pathJoin_eq_slash (b := replaceSep t ++ ".photo_organize_lock") ?hbt (by decide) (by decide)] at h
  case hbs =>
    apply strStartsWithSlash_eq_false
    rw [string_data_append]
    intro hmem
    rcases List.mem_append.mp hmem with h1 | h1
    · exact replaceSep_no_slash s h1
    · revert h1; decide
  case hbt =>
    apply strStartsWithSlash_eq_false
    rw [string_data_append]
    intro hmem
    rcases List.mem_append.mp hmem with h1 | h1
    · exact replaceSep_no_slash t h1
    · revert h1; decide
  have hdata := congrArg String.data h
  simp only [string_data_append] at hdata
  have h2 := List.append_cancel_left hdata
  have h3 := List.append_cancel_right h2
  have h4 : s.data = t.data := replaceSep_map_inj hs ht h3
  cases s
  cases t
  exact congrArg String.mk h4

/-- Witness for the amended C10 at concrete inputs with no underscore. -/
theorem lock_path_injective_no_underscore_witness :
    ('_' ∉ String.data "a/b") ∧ ("a/b" : String) = "a/b" :=
  ⟨by decide, lock_path_injective_no_underscore "a/b" "a/b" (by decide) (by decide) rfl⟩

/-! ## Per-file emission analysis -/

theorem strStartsWithSlash_append (a b : String) :
    strStartsWithSlash (a ++ b)
      = if a.data = [] then strStartsWithSlash b else strStartsWithSlash a := by
  unfold strStartsWithSlash
  rw [string_data_append]
  rcases hd : a.data with _ | ⟨c, cs⟩
  · simp
  · simp

/-- Every successful relocate yields exactly the entry
(filepath, destination_path). -/
theorem relocate_ok_entry (ctx : Ctx) (fs : FS) (filepath : String)
    (content : Bytes) (od dp : String) (r : FS × Option Entry)
    (h : relocate ctx fs filepath content od dp = .ok r) :
    r.2 = some ⟨filepath, dp⟩ := by
  simp only [relocate] at h
  split at h
  · cases h
    rfl
  · split at h
    · cases h
    · split at h
      · cases h
      · split at h
        · split at h
          · cases h
          · cases h
            rfl
        · cases h
          rfl

/-- Every entry emitted by the per-file loop body carries the source path
and the computed destination path for the source's content. -/
theorem processFile_emits (ctx : Ctx) (fs : FS) (p : String) (fs' : FS) (e : Entry)
    (hrun : processFile ctx fs p = (fs', some e)) :
    ∃ content, fs.lookupFile p = some content ∧ e.source = p ∧
      e.destination = fileDestPath ctx p content := by
  unfold processFile at hrun
  rcases hE : processFileE ctx fs p with fsx | r
  · rw [hE] at hrun
    cases hrun
  · rw [hE] at hrun
    obtain rfl : r = (fs', some e) := hrun
    simp only [processFileE] at hE
    by_cases hext : fileExtension p ∈ supported_extensions
    case neg =>
      rw [if_neg hext] at hE
      cases hE
    rw [if_pos hext] at hE
    by_cases hdt : ctx.dtOracle p = DtOutcome.raised
    case pos =>
      rw [if_pos hdt] at hE
      cases hE
    rw [if_neg hdt] at hE
    by_cases hh : ctx.hashRaises p = true
    case pos =>
      rw [if_pos hh] at hE
      cases hE
    rw [if_neg hh] at hE
    split at hE
    case _ hlook =>
      cases hE
    case _ content hlook =>
      refine ⟨content, hlook, ?_⟩
      split at hE
      case _ dcontent hdest =>
        split at hE
        case isTrue hh2 =>
          cases hE
        case isFalse hh2 =>
          split at hE
          case isTrue hsame =>
            split at hE
            case isTrue hdel =>
              split at hE
              case isTrue hdry =>
                cases hE
              case isFalse hdry =>
                split at hE
                case isTrue hrm =>
                  cases hE
                case isFalse hrm =>
                  cases hE
            case isFalse hdel =>
              have h2 := relocate_ok_entry ctx fs p content _ _ _ hE
              have he := Option.some.inj h2
              rw [he]
              exact ⟨rfl, rfl⟩
          case isFalse hsame =>
            have h2 := relocate_ok_entry ctx fs p content _ _ _ hE
            have he := Option.some.inj h2
            rw [he]
            exact ⟨rfl, rfl⟩
      case _ hdest =>
        have h2 := relocate_ok_entry ctx fs p content _ _ _ hE
        have he := Option.some.inj h2
        rw [he]
        exact ⟨rfl, rfl⟩

theorem strStartsWithSlash_append_false {a b : String}
    (ha : strStartsWithSlash a = false) (hb : strStartsWithSlash b = false) :
    strStartsWithSlash (a ++ b) = false := by
  rw [strStartsWithSlash_append]
  split
  · exact hb
  · exact ha

/-- The timestamped destination file name never starts with a separator as
long as the isoformat string does not. -/
theorem destName_some_noslash (t : Timestamp) (sha ext : String)
    (hi : strStartsWithSlash t.iso = false) :
    strStartsWithSlash (destName (some t) sha ext) = false := by
  show strStartsWithSlash (t.iso ++ "_" ++ sha ++ ext) = false
  have h1 : (t.iso ++ "_").data ≠ [] := by
    rw [string_data_append]
    simp
  have h2 : ((t.iso ++ "_") ++ sha).data ≠ [] := by
    rw [string_data_append]
    intro hx
    exact h1 (List.append_eq_nil.mp hx).1
  rw [strStartsWithSlash_append, if_neg h2]
  rw [strStartsWithSlash_append, if_neg h1]
  rw [strStartsWithSlash_append]
  by_cases hi2 : t.iso.data = []
  · rw [if_pos hi2]
    decide
  · rw [if_neg hi2]
    exact hi

/-! ## Claim C1 -/

/-- Claim C1: every entry emitted by the per-file loop of organize has
destination output_root/YYYY/MM/isoformat_hash.ext when a metadata timestamp
was found, and output_root/no_metadata/hash.ext when none was, where hash is
the content hash of the source file and .ext its lower-cased extension
(stated for an output root that is neither empty nor slash-terminated and
digest/isoformat strings that do not start with a separator, as in
reality). -/
theorem organize_destination_formula (ctx : Ctx) (fs : FS) (p : String)
    (content : Bytes) (fs' : FS) (e : Entry)
    (hc : fs.lookupFile p = some content)
    (h1 : ctx.output_root ≠ "")
    (h2 : strEndsWithSlash ctx.output_root = false)
    (hiso : ∀ t, ctx.dtOracle p = DtOutcome.found t → strStartsWithSlash t.iso = false)
    (hsha : strStartsWithSlash
        (file_sha1 ctx.sha1Hex content ++ fileExtension p) = false)
    (hrun : processFile ctx fs p = (fs', some e)) :
    (∀ t, ctx.dtOracle p = DtOutcome.found t →
        e.destination = ctx.output_root ++ "/" ++ padZeros 4 t.year ++ "/"
          ++ padZeros 2 t.month ++ "/"
          ++ (t.iso ++ "_" ++ file_sha1 ctx.sha1Hex content ++ fileExtension p)) ∧
    (ctx.dtOracle p = DtOutcome.noMetadata →
        e.destination = ctx.output_root ++ "/" ++ "no_metadata" ++ "/"
          ++ (file_sha1 ctx.sha1Hex content ++ fileExtension p)) := by
  obtain ⟨c2, hc2, hsrc, hdst⟩ := processFile_emits ctx fs p fs' e hrun
  rw [hc] at hc2
  obtain rfl : content = c2 := Option.some.inj hc2
  constructor
  · intro t ht
    rw [hdst]
    unfold fileDestPath fileDestDirs
    rw [ht]
    simp only [dtView]
    have hprops := destDirs_some_props ctx.output_root t h1 h2
    rw [pathJoin_eq_slash
      (destName_some_noslash t (file_sha1 ctx.sha1Hex content) (fileExtension p)
        (hiso t ht))
      hprops.1 hprops.2]
    rw [destDirs_some_eq ctx.output_root t h1 h2]
    rfl
  · intro hnm
    rw [hdst]
    unfold fileDestPath fileDestDirs
    rw [hnm]
    simp only [dtView, destName]
    have hprops := destDirs_none_props ctx.output_root h1 h2
    rw [pathJoin_eq_slash hsha hprops.1 hprops.2]
    rw [destDirs_none_eq ctx.output_root h1 h2]

/-- Witness for C1 at a concrete input: one JPEG with timestamp
2014-06-01T10:00:00 lands at out/2014/06/2014-06-01T10:00:00_h.jpg. -/
theorem organize_destination_formula_witness :
    (∀ t, ctxTsC.dtOracle "in/a.jpg" = DtOutcome.found t →
        eTsC.destination = ctxTsC.output_root ++ "/" ++ padZeros 4 t.year ++ "/"
          ++ padZeros 2 t.month ++ "/"
          ++ (t.iso ++ "_" ++ file_sha1 ctxTsC.sha1Hex [1]
              ++ fileExtension "in/a.jpg")) ∧
    (ctxTsC.dtOracle "in/a.jpg" = DtOutcome.noMetadata →
        eTsC.destination = ctxTsC.output_root ++ "/" ++ "no_metadata" ++ "/"
          ++ (file_sha1 ctxTsC.sha1Hex [1] ++ fileExtension "in/a.jpg")) :=
  organize_destination_formula ctxTsC fsC "in/a.jpg" [1] fsTsAfterC eTsC rfl
    (by decide) (by decide)
    (fun t ht => by
      rw [← DtOutcome.found.inj ht]
      decide)
    (by decide) (by decide)

/-! ## Claim C8 -/

/-- Claim C8: the destination path is a function of (timestamp-or-absence,
content hash, extension, output root) alone, so equal inputs give equal
destinations across any two runs; and a file already sitting at its own
computed destination is mapped to exactly that path again, so re-running the
organizer on an already-organized tree changes no valid destination's
path. -/
theorem destination_deterministic :
    (∀ (ctx ctx2 : Ctx) (fs fs2 : FS) (p p2 : String)
        (content content2 : Bytes) (fs1 fs3 : FS) (e e2 : Entry),
      fs.lookupFile p = some content → fs2.lookupFile p2 = some content2 →
      ctx.output_root = ctx2.output_root →
      dtView (ctx.dtOracle p) = dtView (ctx2.dtOracle p2) →
      file_sha1 ctx.sha1Hex content = file_sha1 ctx2.sha1Hex content2 →
      fileExtension p = fileExtension p2 →
      processFile ctx fs p = (fs1, some e) →
      processFile ctx2 fs2 p2 = (fs3, some e2) →
      e.destination = e2.destination) ∧
    (∀ (ctx : Ctx) (fs : FS) (p : String) (content : Bytes) (fs1 : FS) (e : Entry),
      fs.lookupFile p = some content →
      p = fileDestPath ctx p content →
      processFile ctx fs p = (fs1, some e) →
      e.destination = p) := by
  constructor
  · intro ctx ctx2 fs fs2 p p2 content content2 fs1 fs3 e e2 hc hc2 hout hdt hsha hext hr hr2
    obtain ⟨ca, hca, _, hda⟩ := processFile_emits ctx fs p fs1 e hr
    obtain ⟨cb, hcb, _, hdb⟩ := processFile_emits ctx2 fs2 p2 fs3 e2 hr2
    rw [hc] at hca
    rw [hc2] at hcb
    obtain rfl : content = ca := Option.some.inj hca
    obtain rfl : content2 = cb := Option.some.inj hcb
    rw [hda, hdb]
    unfold fileDestPath fileDestDirs
    rw [hout, hdt, hsha, hext]
  · intro ctx fs p content fs1 e hc hp hr
    obtain ⟨ca, hca, _, hda⟩ := processFile_emits ctx fs p fs1 e hr
    rw [hc] at hca
    obtain rfl : content = ca := Option.some.inj hca
    rw [hda, ← hp]

/-- Witness for C8 at concrete inputs: equal inputs give the same
destination, and re-processing a file already at its computed destination
maps it to itself. -/
theorem destination_deterministic_witness :
    eTsC.destination = eTsC.destination ∧
    Entry.destination ⟨"out/no_metadata/h.jpg", "out/no_metadata/h.jpg"⟩
      = "out/no_metadata/h.jpg" :=
  ⟨destination_deterministic.1 ctxTsC ctxTsC fsC fsC "in/a.jpg" "in/a.jpg"
      [1] [1] fsTsAfterC fsTsAfterC eTsC eTsC rfl rfl rfl rfl rfl rfl
      (by decide) (by decide),
    destination_deterministic.2 ctxC fsFixC "out/no_metadata/h.jpg" [1] fsFixC
      ⟨"out/no_metadata/h.jpg", "out/no_metadata/h.jpg"⟩ rfl (by decide) (by decide)⟩

/-! ## Claim C2 -/

/-- Counterexample for C2 as stated: with the skip policy
(delete_duplicates not selected) and a content-identical file already at the
computed destination, the per-file loop still emits a ProcessedEntry for the
file and relocates it (the source is moved away), instead of skipping it. -/
theorem duplicate_skip_counterexample :
    (processFile ctxC fsDupC "in/a.jpg").2
        = some { source := "in/a.jpg", destination := "out/no_metadata/h.jpg" } ∧
    (processFile ctxC fsDupC "in/a.jpg").1.lookupFile "in/a.jpg" = none :=
  ⟨rfl, rfl⟩

/-- Claim C2 (amended): the duplicate check changes behaviour only when
delete_duplicates is selected.  When the computed destination already holds
a file with the same content hash and delete_duplicates is NOT selected,
organize does not skip the file: it relocates it onto the existing
destination (move or copy) and emits a ProcessedEntry for it. -/
theorem duplicate_without_delete_still_relocated (ctx : Ctx) (fs : FS) (p : String)
    (content dcontent : Bytes)
    (hext : fileExtension p ∈ supported_extensions)
    (hdt : ctx.dtOracle p ≠ DtOutcome.raised)
    (hh1 : ctx.hashRaises p = false)
    (hc : fs.lookupFile p = some content)
    (hdup : fs.lookupFile (fileDestPath ctx p content) = some dcontent)
    (hh2 : ctx.hashRaises (fileDestPath ctx p content) = false)
    (hsame : file_sha1 ctx.sha1Hex dcontent = file_sha1 ctx.sha1Hex content)
    (hdd : ctx.delete_duplicates = false)
    (hdry : ctx.dry_run = false)
    (hmk : ctx.mkdirRaises (fileDestDirs ctx p) = false)
    (hmv : ctx.moveRaises p = false)
    (hcp : ctx.copy = true → fileDestPath ctx p content ≠ p) :
    processFile ctx fs p
      = ((if ctx.copy then (fs.makedirs (fileDestDirs ctx p)).setFile
            (fileDestPath ctx p content) content
          else ((fs.makedirs (fileDestDirs ctx p)).removeFile p).setFile
            (fileDestPath ctx p content) content),
         some ⟨p, fileDestPath ctx p content⟩) := by
  unfold fileDestPath at hdup hh2 hcp ⊢
  unfold fileDestDirs at hdup hh2 hmk hcp ⊢
  by_cases hcopy : ctx.copy = true
  · have hne := hcp hcopy
    unfold processFile
    simp only [processFileE, relocate, hext, hdt, hh1, hc, hdup, hh2, hsame, hdd,
      hdry, hmk, hmv, hcopy, hne, Bool.false_eq_true, if_true, if_false,
      ite_true, ite_false, ne_eq, not_false_eq_true]
  · simp only [Bool.not_eq_true] at hcopy
    unfold processFile
    simp only [processFileE, relocate, hext, hdt, hh1, hc, hdup, hh2, hsame, hdd,
      hdry, hmk, hmv, hcopy, Bool.false_eq_true, if_true, if_false,
      ite_true, ite_false]

/-- Witness for the amended C2 at a concrete input: the duplicate is moved
onto the existing destination and an entry is emitted. -/
theorem duplicate_without_delete_still_relocated_witness :
    processFile ctxC fsDupC "in/a.jpg"
      = ((if ctxC.copy then (fsDupC.makedirs (fileDestDirs ctxC "in/a.jpg")).setFile
            (fileDestPath ctxC "in/a.jpg" [1]) [1]
          else ((fsDupC.makedirs (fileDestDirs ctxC "in/a.jpg")).removeFile
            "in/a.jpg").setFile (fileDestPath ctxC "in/a.jpg" [1]) [1]),
         some ⟨"in/a.jpg", fileDestPath ctxC "in/a.jpg" [1]⟩) :=
  duplicate_without_delete_still_relocated ctxC fsDupC "in/a.jpg" [1] [1]
    (by decide) (by decide) (by decide) (by decide) (by decide) (by decide)
    (by decide) (by decide) (by decide) (by decide) (by decide)
    (fun hcp => absurd hcp (by decide))

/-! ## Dry-run analysis -/

/-- In dry-run mode the per-file body leaves the filesystem untouched on
every path: it either raises with the state unchanged or completes with the
state unchanged. -/
theorem processFileE_dry (ctx : Ctx) (fs : FS) (p : String)
    (hdry : ctx.dry_run = true) :
    processFileE ctx fs p = .error fs
      ∨ ∃ e, processFileE ctx fs p = .ok (fs, e) := by
  simp only [processFileE, relocate, hdry, ite_true, if_true]
  split
  · split
    · exact Or.inl rfl
    · split
      · exact Or.inl rfl
      · split
        · exact Or.inl rfl
        · split
          · split
            · exact Or.inl rfl
            · split
              · split
                · exact Or.inr ⟨none, rfl⟩
                · exact Or.inr ⟨_, rfl⟩
              · exact Or.inr ⟨_, rfl⟩
          · exact Or.inr ⟨_, rfl⟩
  · exact Or.inr ⟨none, rfl⟩

theorem processFile_dry_fs (ctx : Ctx) (fs : FS) (p : String)
    (hdry : ctx.dry_run = true) :
    (processFile ctx fs p).1 = fs := by
  unfold processFile
  rcases processFileE_dry ctx fs p hdry with h | ⟨e, h⟩
  · rw [h]
  · rw [h]

theorem processFiles_dry (ctx : Ctx) (paths : List String)
    (hdry : ctx.dry_run = true) :
    ∀ fs : FS, (processFiles ctx fs paths).1 = fs := by
  induction paths with
  | nil => intro fs; rfl
  | cons p rest ih =>
    intro fs
    simp only [processFiles]
    rw [processFile_dry_fs ctx fs p hdry]
    exact ih fs

theorem cleanupFrom_dry_aux (ctx : Ctx) (hdry : ctx.dry_run = true) :
    ∀ (L : Nat) (fs : FS) (path : String), path.length ≤ L →
      cleanupFrom ctx fs path = fs := by
  intro L
  induction L with
  | zero =>
    intro fs path hlen
    rw [cleanupFrom]
    by_cases hroot : path = ctx.input_root
    · rw [if_pos hroot]
    · rw [if_neg hroot]
      simp only [hdry, ite_true, if_true]
      rw [dif_neg (by omega)]
  | succ L ih =>
    intro fs path hlen
    rw [cleanupFrom]
    by_cases hroot : path = ctx.input_root
    · rw [if_pos hroot]
    · rw [if_neg hroot]
      simp only [hdry, ite_true, if_true]
      by_cases hlt : (splitHead path).length < path.length
      · rw [dif_pos hlt]
        exact ih fs (splitHead path) (by omega)
      · rw [dif_neg hlt]

theorem cleanupFrom_dry (ctx : Ctx) (fs : FS) (path : String)
    (hdry : ctx.dry_run = true) :
    cleanupFrom ctx fs path = fs :=
  cleanupFrom_dry_aux ctx hdry path.length fs path (Nat.le_refl _)

theorem organizeDir_dry (ctx : Ctx) (fs : FS) (dirpath : String)
    (filenames : List String) (hdry : ctx.dry_run = true) :
    (organizeDir ctx fs dirpath filenames).1 = fs := by
  unfold organizeDir
  simp only []
  rw [cleanupFrom_dry ctx _ dirpath hdry]
  exact processFiles_dry ctx _ hdry fs

/-! ## Claim C9 -/

/-- Claim C9: with dry_run enabled, organize performs no filesystem mutation
of any kind: no directory creation, no move or copy, no duplicate-source
deletion even under delete_duplicates, and no empty-directory removal in the
cleanup walk-up; the filesystem after the whole run equals the one before. -/
theorem dry_run_no_mutation (ctx : Ctx) (fs : FS)
    (walk : List (String × List String)) (hdry : ctx.dry_run = true) :
    (organize ctx fs walk).1 = fs := by
  induction walk generalizing fs with
  | nil => rfl
  | cons head rest ih =>
    obtain ⟨dirpath, filenames⟩ := head
    simp only [organize]
    rw [organizeDir_dry ctx fs dirpath filenames hdry]
    exact ih fs

/-- Witness for C9 at a concrete input: a dry run under the
delete-duplicates policy over a tree with a duplicate and a removable
directory changes nothing. -/
theorem dry_run_no_mutation_witness :
    (organize { ctxC with dry_run := true, delete_duplicates := true } fsDupC
        [("in/sub", ["a.jpg"])]).1 = fsDupC :=
  dry_run_no_mutation { ctxC with dry_run := true, delete_duplicates := true }
    fsDupC [("in/sub", ["a.jpg"])] rfl

/-! ## Claim C6 -/

/-- If a real (non-dry) run of the per-file body completes without raising,
the dry run of the same file computes every step, mutates nothing, and
produces the same emission decision. -/
theorem processFileE_dry_vs_real (ctx : Ctx) (fs : FS) (p : String)
    (hdry : ctx.dry_run = true) (r : FS × Option Entry)
    (hreal : processFileE { ctx with dry_run := false } fs p = .ok r) :
    processFileE ctx fs p = .ok (fs, r.2) := by
  simp only [processFileE, relocate] at hreal ⊢
  dsimp only at hreal
  simp only [hdry, ite_true, if_true, Bool.false_eq_true, ite_false, if_false]
    at hreal ⊢
  by_cases hext : fileExtension p ∈ supported_extensions
  case neg =>
    rw [if_neg hext] at hreal ⊢
    cases hreal
    rfl
  rw [if_pos hext] at hreal ⊢
  by_cases hdt : ctx.dtOracle p = DtOutcome.raised
  case pos =>
    rw [if_pos hdt] at hreal
    cases hreal
  rw [if_neg hdt] at hreal ⊢
  by_cases hh : ctx.hashRaises p = true
  case pos =>
    rw [if_pos hh] at hreal
    cases hreal
  rw [if_neg hh] at hreal ⊢
  rcases hlook : fs.lookupFile p with _ | content
  · simp only [hlook] at hreal
    cases hreal
  · simp only [hlook] at hreal ⊢
    rcases hdest : fs.lookupFile (pathJoin
        (destDirs ctx.output_root (dtView (ctx.dtOracle p)))
        (destName (dtView (ctx.dtOracle p)) (file_sha1 ctx.sha1Hex content)
          (fileExtension p))) with _ | dcontent
    · simp only [hdest] at hreal ⊢
      by_cases hmk : ctx.mkdirRaises
          (destDirs ctx.output_root (dtView (ctx.dtOracle p))) = true
      case pos =>
        rw [if_pos hmk] at hreal
        cases hreal
      rw [if_neg hmk] at hreal
      by_cases hmv : ctx.moveRaises p = true
      case pos =>
        rw [if_pos hmv] at hreal
        cases hreal
      rw [if_neg hmv] at hreal
      by_cases hcopy : ctx.copy = true
      case pos =>
        rw [if_pos hcopy] at hreal
        split at hreal
        · cases hreal
        · cases hreal
          rfl
      rw [if_neg hcopy] at hreal
      cases hreal
      rfl
    · simp only [hdest] at hreal ⊢
      by_cases hh2 : ctx.hashRaises (pathJoin
          (destDirs ctx.output_root (dtView (ctx.dtOracle p)))
          (destName (dtView (ctx.dtOracle p)) (file_sha1 ctx.sha1Hex content)
            (fileExtension p))) = true
      case pos =>
        rw [if_pos hh2] at hreal
        cases hreal
      rw [if_neg hh2] at hreal ⊢
      by_cases hsame : file_sha1 ctx.sha1Hex dcontent
          = file_sha1 ctx.sha1Hex content
      case neg =>
        rw [if_neg hsame] at hreal ⊢
        by_cases hmk : ctx.mkdirRaises
            (destDirs ctx.output_root (dtView (ctx.dtOracle p))) = true
        case pos =>
          rw [if_pos hmk] at hreal
          cases hreal
        rw [if_neg hmk] at hreal
        by_cases hmv : ctx.moveRaises p = true
        case pos =>
          rw [if_pos hmv] at hreal
          cases hreal
        rw [if_neg hmv] at hreal
        by_cases hcopy : ctx.copy = true
        case pos =>
          rw [if_pos hcopy] at hreal
          split at hreal
          · cases hreal
          · cases hreal
            rfl
        rw [if_neg hcopy] at hreal
        cases hreal
        rfl
      rw [if_pos hsame] at hreal ⊢
      by_cases hdel : ctx.delete_duplicates = true
      case pos =>
        rw [if_pos hdel] at hreal ⊢
        by_cases hrm : ctx.removeRaises p = true
        · rw [if_pos hrm] at hreal
          cases hreal
          rfl
        · rw [if_neg hrm] at hreal
          cases hreal
          rfl
      rw [if_neg hdel] at hreal ⊢
      by_cases hmk : ctx.mkdirRaises
          (destDirs ctx.output_root (dtView (ctx.dtOracle p))) = true
      case pos =>
        rw [if_pos hmk] at hreal
        cases hreal
      rw [if_neg hmk] at hreal
      by_cases hmv : ctx.moveRaises p = true
      case pos =>
        rw [if_pos hmv] at hreal
        cases hreal
      rw [if_neg hmv] at hreal
      by_cases hcopy : ctx.copy = true
      case pos =>
        rw [if_pos hcopy] at hreal
        split at hreal
        · cases hreal
        · cases hreal
          rfl
      rw [if_neg hcopy] at hreal
      cases hreal
      rfl

/-- Claim C6: with dry_run enabled, the per-file loop of organize still
computes every step (duplicate detection against the real destination tree
included), creates no directory and moves or copies no file, and emits
exactly the ProcessedEntry that a real run completing without an exception
would emit for that file. -/
theorem dry_run_same_entry (ctx : Ctx) (fs : FS) (p : String)
    (hdry : ctx.dry_run = true)
    (hok : ∀ fsx, processFileE { ctx with dry_run := false } fs p
        ≠ Except.error fsx) :
    (processFile ctx fs p).1 = fs ∧
    (processFile ctx fs p).2
      = (processFile { ctx with dry_run := false } fs p).2 := by
  refine ⟨processFile_dry_fs ctx fs p hdry, ?_⟩
  unfold processFile
  rcases hreal : processFileE { ctx with dry_run := false } fs p with fsx | r
  · exact absurd hreal (hok fsx)
  · rw [processFileE_dry_vs_real ctx fs p hdry r hreal]

/-- Witness for C6 at a concrete input: the dry run of the timestamped JPEG
mutates nothing and announces exactly the entry the real run emits. -/
theorem dry_run_same_entry_witness :
    (processFile ctxDryTsC fsC "in/a.jpg").1 = fsC ∧
    (processFile ctxDryTsC fsC "in/a.jpg").2
      = (processFile { ctxDryTsC with dry_run := false } fsC "in/a.jpg").2 :=
  dry_run_same_entry ctxDryTsC fsC "in/a.jpg" rfl
    (fun fsx h => by
      rw [show processFileE { ctxDryTsC with dry_run := false } fsC "in/a.jpg"
          = Except.ok (fsTsAfterC, some eTsC) from rfl] at h
      cases h)

end PhotoOrganize
